import Mathlib

/-!
Verification of the 8-way RIL-by-selfing cross model (`RISELF8` in
`src/cross_riself8.cpp`) against its natural-language specification.

The C++ class supplies the HMM probability functions (`init`, `emit`, `step`),
genotype/metadata validators (`check_geno`, `check_crossinfo`,
`check_handle_x_chr`) and the closed-form recombination-fraction estimator
(`est_rec_frac`).  Each Lean definition below is a shallow embedding of the
corresponding C++ function: machine doubles become `ℝ`, `Rcpp::IntegerVector`
becomes `List ℕ` (or `List (Option ℤ)` where the NA sentinel matters), and the
`IntegerMatrix` of cross info becomes an explicit structure of rows.
-/

namespace RISELF8

/-- Modelled from the spec: the helper `invert_founder_index` lives in
`cross_util.cpp`, which is not part of the sources given; per the spec the
inverted founder-order index maps each founder to its position in the cross
order (`result[cross_info[i]-1] = i` over `i = 0..n-1`, last write wins, a
write with an out-of-range target is dropped). -/
def invert_founder_index (cross_info : List ℕ) : List ℕ :=
  (List.range cross_info.length).foldl
    (fun res i => res.set (cross_info.getD i 0 - 1) i)
    (List.replicate cross_info.length 0)

/-- The sibling test of `RISELF8::step` and `RISELF8::est_rec_frac`: two
(0-based) genotype indices whose inverted founder-order positions agree after
integer division by 2 come from founders crossed directly to each other. -/
def sibling (founder_index : List ℕ) (a b : ℕ) : Bool :=
  decide (founder_index.getD a 0 / 2 = founder_index.getD b 0 / 2)

/-- Embedding of `RISELF8::check_geno`.  Observed values allow `0` (missing)
and the codes `A=1, H=2, B=3, notA=5, notB=4`; true genotypes are `1..8`. -/
def check_geno (gen : ℤ) (is_observed_value : Bool) : Bool :=
  if is_observed_value then
    gen == 0 || gen == 1 || gen == 2 || gen == 3 || gen == 5 || gen == 4
  else
    decide (1 ≤ gen) && decide (gen ≤ 8)

/-- Embedding of `RISELF8::emit`: emission log-probability of observed call
`obs_gen` given true genotype `true_gen`, error probability `error_prob`, and
the founder panel column `founder_geno` at the current marker. -/
noncomputable def emit (obs_gen true_gen : ℕ) (error_prob : ℝ)
    (founder_geno : List ℕ) : ℝ :=
  if obs_gen = 0 then 0
  else
    let f := founder_geno.getD (true_gen - 1) 0
    if f ≠ 1 ∧ f ≠ 3 then 0
    else if f = obs_gen then Real.log (1 - error_prob)
    else Real.log error_prob

/-- Embedding of `RISELF8::step`: transition log-probability between the true
genotypes at two adjacent markers, given recombination fraction `rec_frac` and
the founder order `cross_info` of the individual. -/
noncomputable def step (gen_left gen_right : ℕ) (rec_frac : ℝ)
    (cross_info : List ℕ) : ℝ :=
  if gen_left = gen_right then
    2 * Real.log (1 - rec_frac) - Real.log (1 + 2 * rec_frac)
  else if sibling (invert_founder_index cross_info) (gen_left - 1) (gen_right - 1) then
    Real.log rec_frac + Real.log (1 - rec_frac) - Real.log (1 + 2 * rec_frac)
  else
    Real.log rec_frac - Real.log 2 - Real.log (1 + 2 * rec_frac)

/-- Integer matrix with `NA` modelled as `none`; `ncol` is the declared number
of columns of the `Rcpp::IntegerMatrix` and `rows` its rows. -/
structure IntMatrix where
  ncol : ℕ
  rows : List (List (Option ℤ))

/-- Number of occurrences of entry `a` in a row (the occurrence counting of
`check_crossinfo`, written through a decidable-equality predicate). -/
def cnt (a : Option ℤ) (row : List (Option ℤ)) : ℕ :=
  row.countP (fun x => decide (x = a))

/-- Number of `NA` entries in one cross-info row
(`cross_info(i,j) == NA_INTEGER` count in `check_crossinfo`). -/
def row_missing (row : List (Option ℤ)) : ℕ :=
  cnt none row

/-- The out-of-range test of `check_crossinfo` on one (non-`NA`) entry:
`cross_info(i,j) < 1 || cross_info(i,j) > n_col`, with `n_col = 8`. -/
def oor_pred (x : Option ℤ) : Bool :=
  match x with
  | none => false
  | some k => decide (k < 1 ∨ 8 < k)

/-- Number of out-of-range (non-`NA`) entries in one cross-info row. -/
def row_oor (row : List (Option ℤ)) : ℕ :=
  row.countP oor_pred

/-- Per-row invalid count of `check_crossinfo`: out-of-range entries plus, for
each value `1..8`, the absolute deviation of its occurrence count from 1. -/
def row_invalid (row : List (Option ℤ)) : ℕ :=
  row_oor row +
    ((List.range 8).map (fun j : ℕ => ((cnt (some ((j : ℤ) + 1)) row : ℤ) - 1).natAbs)).sum

/-- Total missing count accumulated over all rows in `check_crossinfo`. -/
def n_missing (m : IntMatrix) : ℕ :=
  (m.rows.map row_missing).sum

/-- Total invalid count accumulated over all rows in `check_crossinfo`. -/
def n_invalid (m : IntMatrix) : ℕ :=
  (m.rows.map row_invalid).sum

/-- Embedding of `RISELF8::check_crossinfo`: false immediately when the matrix
does not have 8 columns; otherwise true exactly when the accumulated missing
and invalid counts are both zero. -/
def check_crossinfo (m : IntMatrix) : Bool :=
  if m.ncol ≠ 8 then false
  else decide (n_missing m = 0) && decide (n_invalid m = 0)

/-- The reference content of a valid cross-info row: one occurrence of each of
the values `1..8` (the target multiset of `check_crossinfo`'s per-row check). -/
def perm_target : List (Option ℤ) :=
  [some 1, some 2, some 3, some 4, some 5, some 6, some 7, some 8]

/-- Embedding of `RISELF8::check_handle_x_chr`: the boolean result paired with
the diagnostic messages emitted through `r_message` (the side channel). -/
def check_handle_x_chr (any_x_chr : Bool) : Bool × List String :=
  if any_x_chr then (false, ["X chr ignored for RIL by selfing."])
  else (true, [])

/-- Sum `u` of `RISELF8::est_rec_frac`: posterior mass on identical-genotype
pairs, accumulated over individuals (`cross_info` holds one founder-order
column per individual, `gamma` is the flattened stack of `n_gen × n_gen`
posterior matrices). -/
noncomputable def riself8_u (gamma : List ℝ) (cross_info : List (List ℕ))
    (n_gen : ℕ) : ℝ :=
  ∑ ind ∈ Finset.range cross_info.length, ∑ gl ∈ Finset.range n_gen,
    gamma.getD (ind * (n_gen * n_gen) + gl * n_gen + gl) 0

/-- Sum `v` of `RISELF8::est_rec_frac`: posterior mass on sibling-founder
genotype pairs. -/
noncomputable def riself8_v (gamma : List ℝ) (cross_info : List (List ℕ))
    (n_gen : ℕ) : ℝ :=
  ∑ ind ∈ Finset.range cross_info.length, ∑ gl ∈ Finset.range n_gen,
    ∑ gr ∈ Finset.range n_gen,
      if gl < gr ∧ sibling (invert_founder_index (cross_info.getD ind [])) gl gr then
        gamma.getD (ind * (n_gen * n_gen) + gl * n_gen + gr) 0 +
          gamma.getD (ind * (n_gen * n_gen) + gr * n_gen + gl) 0
      else 0

/-- Sum `w` of `RISELF8::est_rec_frac`: posterior mass on non-sibling
genotype pairs. -/
noncomputable def riself8_w (gamma : List ℝ) (cross_info : List (List ℕ))
    (n_gen : ℕ) : ℝ :=
  ∑ ind ∈ Finset.range cross_info.length, ∑ gl ∈ Finset.range n_gen,
    ∑ gr ∈ Finset.range n_gen,
      if gl < gr ∧ ¬ sibling (invert_founder_index (cross_info.getD ind [])) gl gr then
        gamma.getD (ind * (n_gen * n_gen) + gl * n_gen + gr) 0 +
          gamma.getD (ind * (n_gen * n_gen) + gr * n_gen + gl) 0
      else 0

/-- Embedding of `RISELF8::est_rec_frac`: closed-form MLE of the recombination
fraction from the accumulated posterior masses, clamped below at 0. -/
noncomputable def est_rec_frac (gamma : List ℝ) (cross_info : List (List ℕ))
    (n_gen : ℕ) : ℝ :=
  let u := riself8_u gamma cross_info n_gen
  let v := riself8_v gamma cross_info n_gen
  let w := riself8_w gamma cross_info n_gen
  let n := u + v + w
  let A := Real.sqrt (4*n*n + 4*n*(2*u - 2*v - 3*w) + 9*w*w + 12*w*(u + 2*v) +
    16*v*v + 16*u*v + 4*u*u)
  let result := (2*n + 2*u - w - A) / 4 / (n - w - 2*v - 2*u)
  if result < 0 then 0 else result

end RISELF8

open RISELF8

/-- C7: `step` is symmetric in its two genotype arguments, for every
recombination fraction and every cross-info vector. -/
theorem riself8_step_symm (gl gr : ℕ) (r : ℝ) (ci : List ℕ) :
    step gl gr r ci = step gr gl r ci := by
  unfold step
  by_cases h : gl = gr
  · subst h; rfl
  · have h' : ¬ gr = gl := fun e => h e.symm
    rw [if_neg h, if_neg h']
    have hsymm : sibling (invert_founder_index ci) (gl - 1) (gr - 1)
        = sibling (invert_founder_index ci) (gr - 1) (gl - 1) := by
      unfold sibling
      rw [decide_eq_decide]
      exact eq_comm
    rw [hsymm]

/-- C8: `check_handle_x_chr` never throws; with X-chromosome data present it
returns `false` together with exactly one diagnostic message, and without it
returns `true` with no message. -/
theorem riself8_check_handle_x_chr_spec :
    check_handle_x_chr true = (false, ["X chr ignored for RIL by selfing."]) ∧
    check_handle_x_chr false = (true, []) :=
  ⟨rfl, rfl⟩

/-- C9: as an observed value, a genotype code is accepted exactly when it is
one of `0, 1, 2, 3, 4, 5`; in particular the valid true-genotype codes `6`,
`7`, `8` are rejected as observed values. -/
theorem riself8_check_geno_observed (g : ℤ) :
    (check_geno g true = true ↔
      (g = 0 ∨ g = 1 ∨ g = 2 ∨ g = 3 ∨ g = 4 ∨ g = 5)) ∧
    check_geno 6 true = false ∧ check_geno 7 true = false ∧
    check_geno 8 true = false := by
  refine ⟨?_, by decide, by decide, by decide⟩
  have hdef : check_geno g true
      = (g == 0 || g == 1 || g == 2 || g == 3 || g == 5 || g == 4) := rfl
  rw [hdef]
  simp only [Bool.or_eq_true, beq_iff_eq]
  tauto

/-- C9 witness: the iff applied at the concrete observed code `0`. -/
theorem riself8_check_geno_observed_witness : check_geno 0 true = true :=
  (riself8_check_geno_observed 0).1.mpr (Or.inl rfl)

/-- C1: the three branches of `step`: identical genotypes give
`2·log(1-r) - log(1+2r)`; distinct genotypes whose inverted founder-order
indices agree after integer division by 2 give `log r + log(1-r) - log(1+2r)`;
all remaining pairs give `log r - log 2 - log(1+2r)`. -/
theorem riself8_step_branches (gl gr : ℕ) (r : ℝ) (ci : List ℕ) :
    (gl = gr → step gl gr r ci
      = 2 * Real.log (1 - r) - Real.log (1 + 2 * r)) ∧
    (gl ≠ gr → sibling (invert_founder_index ci) (gl - 1) (gr - 1) = true →
      step gl gr r ci
        = Real.log r + Real.log (1 - r) - Real.log (1 + 2 * r)) ∧
    (gl ≠ gr → sibling (invert_founder_index ci) (gl - 1) (gr - 1) = false →
      step gl gr r ci
        = Real.log r - Real.log 2 - Real.log (1 + 2 * r)) := by
  refine ⟨fun h => by simp [step, h], fun h hs => ?_, fun h hs => ?_⟩
  · simp [step, h, hs]
  · simp [step, h, hs]

/-- C1 witness: evaluating the sibling branch on the identity cross order,
where genotypes 1 and 2 come from founders crossed directly to each other. -/
theorem riself8_step_branches_witness :
    step 1 2 (1/4) [1, 2, 3, 4, 5, 6, 7, 8]
      = Real.log (1/4) + Real.log (1 - 1/4) - Real.log (1 + 2 * (1/4)) :=
  (riself8_step_branches 1 2 (1/4) [1, 2, 3, 4, 5, 6, 7, 8]).2.1
    (by decide) (by decide)

/-- C3 counterexample: at `r = 1/2` the identical-genotype branch of `step`
equals `-log 8`, not `-log 4` as the claim states. -/
theorem riself8_step_half_ne_neg_log4 :
    step 1 1 (1/2) [1, 2, 3, 4, 5, 6, 7, 8] ≠ -Real.log 4 := by
  have hval : step 1 1 (1/2) [1, 2, 3, 4, 5, 6, 7, 8]
      = 2 * Real.log (1 - 1/2) - Real.log (1 + 2 * (1/2)) := by
    simp [step]
  rw [hval]
  have h12 : (1 : ℝ) - 1/2 = 2⁻¹ := by norm_num
  have h2 : (1 : ℝ) + 2 * (1/2) = 2 := by norm_num
  have h4 : (4 : ℝ) = 2 ^ 2 := by norm_num
  rw [h12, h2, h4, Real.log_inv, Real.log_pow]
  push_cast
  intro h
  have hpos : 0 < Real.log 2 := Real.log_pos (by norm_num)
  linarith

/-- C3 amended: at `r = 1/2` all three branches of `step` take the common
value `-log 8`, for every pair of genotypes and every cross-info vector. -/
theorem riself8_step_half_uniform (gl gr : ℕ) (ci : List ℕ) :
    step gl gr (1/2) ci = -Real.log 8 := by
  have L1 : Real.log (1 - 1/2 : ℝ) = -Real.log 2 := by
    rw [show (1 - 1/2 : ℝ) = 2⁻¹ by norm_num, Real.log_inv]
  have L2 : Real.log (1/2 : ℝ) = -Real.log 2 := by
    rw [show (1/2 : ℝ) = 2⁻¹ by norm_num, Real.log_inv]
  have L3 : Real.log (1 + 2 * (1/2) : ℝ) = Real.log 2 := by norm_num
  have L8 : Real.log (8 : ℝ) = 3 * Real.log 2 := by
    rw [show (8 : ℝ) = 2 ^ 3 by norm_num, Real.log_pow]
    push_cast
    ring
  unfold step
  split_ifs <;> simp only [L1, L2, L3, L8] <;> ring

/-- C4: case analysis of `emit` for a valid true genotype and error
probability in `[0,1)`: missing observation gives 0, missing/ambiguous founder
allele gives 0 independently of the error probability, and otherwise the
result is `log(1-e)` on a match and `log e` on a mismatch. -/
theorem riself8_emit_cases (obs g : ℕ) (e : ℝ) (fg : List ℕ)
    (hg : 1 ≤ g ∧ g ≤ 8) (he : 0 ≤ e ∧ e < 1) :
    (obs = 0 → emit obs g e fg = 0) ∧
    (obs ≠ 0 → fg.getD (g - 1) 0 ≠ 1 → fg.getD (g - 1) 0 ≠ 3 →
      emit obs g e fg = 0) ∧
    (obs ≠ 0 → (fg.getD (g - 1) 0 = 1 ∨ fg.getD (g - 1) 0 = 3) →
      fg.getD (g - 1) 0 = obs → emit obs g e fg = Real.log (1 - e)) ∧
    (obs ≠ 0 → (fg.getD (g - 1) 0 = 1 ∨ fg.getD (g - 1) 0 = 3) →
      fg.getD (g - 1) 0 ≠ obs → emit obs g e fg = Real.log e) := by
  have hdef : emit obs g e fg
      = (if obs = 0 then (0:ℝ)
         else if fg.getD (g - 1) 0 ≠ 1 ∧ fg.getD (g - 1) 0 ≠ 3 then 0
         else if fg.getD (g - 1) 0 = obs then Real.log (1 - e)
         else Real.log e) := rfl
  have hnot : (fg.getD (g - 1) 0 = 1 ∨ fg.getD (g - 1) 0 = 3) →
      ¬(fg.getD (g - 1) 0 ≠ 1 ∧ fg.getD (g - 1) 0 ≠ 3) := by
    rintro (hf | hf) ⟨h1, h3⟩
    · exact h1 hf
    · exact h3 hf
  refine ⟨fun h => by rw [hdef, if_pos h],
    fun h h1 h3 => by rw [hdef, if_neg h, if_pos ⟨h1, h3⟩],
    fun h hf hm => by rw [hdef, if_neg h, if_neg (hnot hf), if_pos hm],
    fun h hf hm => by rw [hdef, if_neg h, if_neg (hnot hf), if_neg hm]⟩

/-- C4 witness: a missing observation on a concrete founder panel. -/
theorem riself8_emit_cases_witness :
    emit 0 1 (1/2) [1, 1, 1, 1, 1, 1, 1, 1] = 0 :=
  (riself8_emit_cases 0 1 (1/2) [1, 1, 1, 1, 1, 1, 1, 1]
    (by decide) (by norm_num)).1 rfl

/-- C10: when the founder allele for the true genotype is present (1 or 3)
and the observed call is one of the ambiguous codes H=2, notB=4, notA=5, the
emission is always `log error_prob`: an ambiguous call never matches a founder
allele. -/
theorem riself8_emit_ambiguous (obs g : ℕ) (e : ℝ) (fg : List ℕ)
    (hf : fg.getD (g - 1) 0 = 1 ∨ fg.getD (g - 1) 0 = 3)
    (hobs : obs = 2 ∨ obs = 4 ∨ obs = 5) :
    emit obs g e fg = Real.log e := by
  have hdef : emit obs g e fg
      = (if obs = 0 then (0:ℝ)
         else if fg.getD (g - 1) 0 ≠ 1 ∧ fg.getD (g - 1) 0 ≠ 3 then 0
         else if fg.getD (g - 1) 0 = obs then Real.log (1 - e)
         else Real.log e) := rfl
  have h0 : obs ≠ 0 := by rcases hobs with h | h | h <;> subst h <;> decide
  have hnot : ¬(fg.getD (g - 1) 0 ≠ 1 ∧ fg.getD (g - 1) 0 ≠ 3) := by
    rcases hf with hf | hf
    · exact fun hc => hc.1 hf
    · exact fun hc => hc.2 hf
  have hne : fg.getD (g - 1) 0 ≠ obs := by
    rcases hf with hf | hf <;> rcases hobs with h | h | h <;> rw [hf, h] <;> decide
  rw [hdef, if_neg h0, if_neg hnot, if_neg hne]

/-- C10 witness: observed heterozygote call against a present founder allele. -/
theorem riself8_emit_ambiguous_witness :
    emit 2 1 (1/100) [1, 1, 1, 1, 1, 1, 1, 1] = Real.log (1/100) :=
  riself8_emit_ambiguous 2 1 (1/100) [1, 1, 1, 1, 1, 1, 1, 1]
    (Or.inl (by decide)) (Or.inl rfl)

/-- C6: for a fixed recombination fraction in `(0, 1/2)`, the `step` values are
ordered by topology class: identical pairs ≥ sibling pairs ≥ non-sibling
pairs. -/
theorem riself8_step_monotone (r : ℝ) (ci : List ℕ) (g1 g2 gs1 gs2 gn1 gn2 : ℕ)
    (hr0 : 0 < r) (hr5 : r < 1/2)
    (hid : g1 = g2)
    (hs : gs1 ≠ gs2)
    (hsib : sibling (invert_founder_index ci) (gs1 - 1) (gs2 - 1) = true)
    (hn : gn1 ≠ gn2)
    (hnsib : sibling (invert_founder_index ci) (gn1 - 1) (gn2 - 1) = false) :
    step gn1 gn2 r ci ≤ step gs1 gs2 r ci ∧
      step gs1 gs2 r ci ≤ step g1 g2 r ci := by
  have E1 : step g1 g2 r ci
      = 2 * Real.log (1 - r) - Real.log (1 + 2 * r) := by simp [step, hid]
  have E2 : step gs1 gs2 r ci
      = Real.log r + Real.log (1 - r) - Real.log (1 + 2 * r) := by
    simp [step, hs, hsib]
  have E3 : step gn1 gn2 r ci
      = Real.log r - Real.log 2 - Real.log (1 + 2 * r) := by
    simp [step, hn, hnsib]
  have hlog1 : Real.log r ≤ Real.log (1 - r) :=
    Real.log_le_log hr0 (by linarith)
  have hlog2 : -Real.log 2 ≤ Real.log (1 - r) := by
    have hhalf : Real.log (2⁻¹ : ℝ) ≤ Real.log (1 - r) := by
      apply Real.log_le_log (by norm_num)
      rw [show (2⁻¹ : ℝ) = 1/2 by norm_num]
      linarith
    rwa [Real.log_inv] at hhalf
  constructor
  · rw [E2, E3]; linarith
  · rw [E1, E2]; linarith

/-- C6 witness: the ordering at `r = 1/4` on the identity cross order, with
the identical pair (3,3), the sibling pair (1,2) and the non-sibling pair
(1,3). -/
theorem riself8_step_monotone_witness :
    step 1 3 (1/4) [1, 2, 3, 4, 5, 6, 7, 8]
        ≤ step 1 2 (1/4) [1, 2, 3, 4, 5, 6, 7, 8] ∧
      step 1 2 (1/4) [1, 2, 3, 4, 5, 6, 7, 8]
        ≤ step 3 3 (1/4) [1, 2, 3, 4, 5, 6, 7, 8] :=
  riself8_step_monotone (1/4) [1, 2, 3, 4, 5, 6, 7, 8] 3 3 1 2 1 3
    (by norm_num) (by norm_num) rfl (by decide) (by decide) (by decide)
    (by decide)

/-- Clamping a negative value to zero is taking a maximum with zero. -/
theorem riself8_ite_neg_max (x : ℝ) : (if x < 0 then (0:ℝ) else x) = max 0 x := by
  rcases lt_or_le x 0 with h | h
  · rw [if_pos h, max_eq_left h.le]
  · rw [if_neg (not_lt.mpr h), max_eq_right h]

/-- C2: `est_rec_frac` returns exactly the closed-form MLE
`(2n + 2u - w - A) / (4(n - w - 2v - 2u))` with
`A = sqrt(4n² + 4n(2u-2v-3w) + 9w² + 12w(u+2v) + 16v² + 16uv + 4u²)`,
with any negative result clamped to 0 and no upper clamp applied. -/
theorem riself8_est_rec_frac_formula (gamma : List ℝ) (ci : List (List ℕ))
    (n_gen : ℕ) :
    est_rec_frac gamma ci n_gen =
      (let u := riself8_u gamma ci n_gen
       let v := riself8_v gamma ci n_gen
       let w := riself8_w gamma ci n_gen
       let n := u + v + w
       max 0 ((2*n + 2*u - w -
           Real.sqrt (4*n^2 + 4*n*(2*u - 2*v - 3*w) + 9*w^2 + 12*w*(u + 2*v) +
             16*v^2 + 16*u*v + 4*u^2)) / (4*(n - w - 2*v - 2*u)))) := by
  unfold est_rec_frac
  set u := riself8_u gamma ci n_gen with hu
  set v := riself8_v gamma ci n_gen with hv
  set w := riself8_w gamma ci n_gen with hw
  dsimp only
  rw [div_div]
  rw [show 4*(u+v+w)*(u+v+w) + 4*(u+v+w)*(2*u - 2*v - 3*w) + 9*w*w +
        12*w*(u + 2*v) + 16*v*v + 16*u*v + 4*u*u
      = 4*(u+v+w)^2 + 4*(u+v+w)*(2*u - 2*v - 3*w) + 9*w^2 + 12*w*(u + 2*v) +
        16*v^2 + 16*u*v + 4*u^2 from by ring]
  exact riself8_ite_neg_max _

/-- Two rows are permutations of each other exactly when every entry occurs
equally often in both. -/
theorem riself8_perm_iff_cnt (l₁ l₂ : List (Option ℤ)) :
    l₁.Perm l₂ ↔ ∀ a, cnt a l₁ = cnt a l₂ :=
  List.perm_iff_count

/-- The reference row has no missing entry. -/
theorem riself8_cnt_none_perm_target : cnt none perm_target = 0 := by decide

/-- Occurrence count of any value in the reference row: 1 inside `1..8`,
0 outside. -/
theorem riself8_cnt_perm_target (k : ℤ) :
    cnt (some k) perm_target = if 1 ≤ k ∧ k ≤ 8 then 1 else 0 := by
  by_cases hk : 1 ≤ k ∧ k ≤ 8
  · rw [if_pos hk]
    obtain ⟨h1, h8⟩ := hk
    interval_cases k <;> decide
  · rw [if_neg hk]
    unfold cnt
    rw [List.countP_eq_zero]
    intro x hx
    simp only [perm_target, List.mem_cons, List.not_mem_nil, or_false] at hx
    simp only [decide_eq_true_eq]
    rcases hx with rfl | rfl | rfl | rfl | rfl | rfl | rfl | rfl <;>
      (intro he; have hh := Option.some.inj he; omega)

/-- Every entry of the reference row is `some k` with `k` in `1..8`. -/
theorem riself8_mem_perm_target {x : Option ℤ} (hx : x ∈ perm_target) :
    ∃ k : ℤ, 1 ≤ k ∧ k ≤ 8 ∧ x = some k := by
  simp only [perm_target, List.mem_cons, List.not_mem_nil, or_false] at hx
  rcases hx with rfl | rfl | rfl | rfl | rfl | rfl | rfl | rfl
  · exact ⟨1, by norm_num, by norm_num, rfl⟩
  · exact ⟨2, by norm_num, by norm_num, rfl⟩
  · exact ⟨3, by norm_num, by norm_num, rfl⟩
  · exact ⟨4, by norm_num, by norm_num, rfl⟩
  · exact ⟨5, by norm_num, by norm_num, rfl⟩
  · exact ⟨6, by norm_num, by norm_num, rfl⟩
  · exact ⟨7, by norm_num, by norm_num, rfl⟩
  · exact ⟨8, by norm_num, by norm_num, rfl⟩

/-- One row passes both per-row counts of `check_crossinfo` exactly when it is
a permutation of `some 1, ..., some 8`. -/
theorem riself8_row_ok_iff (row : List (Option ℤ)) :
    (row_missing row = 0 ∧ row_invalid row = 0) ↔ row.Perm perm_target := by
  constructor
  · rintro ⟨hm, hi⟩
    have hsplit : row_oor row = 0 ∧
        ((List.range 8).map
          (fun j : ℕ => ((cnt (some ((j : ℤ) + 1)) row : ℤ) - 1).natAbs)).sum = 0 := by
      unfold row_invalid at hi
      omega
    have hcnt : ∀ j ∈ List.range 8,
        ((cnt (some ((j : ℤ) + 1)) row : ℤ) - 1).natAbs = 0 :=
      fun j hj => List.sum_eq_zero_iff.mp hsplit.2 _ (List.mem_map_of_mem _ hj)
    rw [riself8_perm_iff_cnt]
    intro a
    cases a with
    | none =>
      rw [show cnt none row = 0 from hm, riself8_cnt_none_perm_target]
    | some k =>
      rw [riself8_cnt_perm_target]
      by_cases hk : 1 ≤ k ∧ k ≤ 8
      · rw [if_pos hk]
        have hj : (k - 1).toNat ∈ List.range 8 := by rw [List.mem_range]; omega
        have h1 := hcnt _ hj
        rw [show (((k - 1).toNat : ℤ) + 1) = k from by omega] at h1
        omega
      · rw [if_neg hk]
        unfold cnt
        rw [List.countP_eq_zero]
        intro x hxmem
        simp only [decide_eq_true_eq]
        intro hxk
        subst hxk
        have hpos : 0 < row_oor row := by
          unfold row_oor
          rw [List.countP_pos_iff]
          refine ⟨some k, hxmem, ?_⟩
          show decide (k < 1 ∨ 8 < k) = true
          simp only [decide_eq_true_eq]
          omega
        omega
  · intro hp
    have hcount := (riself8_perm_iff_cnt _ _).mp hp
    have hmiss : row_missing row = 0 := by
      show cnt none row = 0
      rw [hcount none, riself8_cnt_none_perm_target]
    refine ⟨hmiss, ?_⟩
    unfold row_invalid
    have hoor : row_oor row = 0 := by
      unfold row_oor
      rw [List.countP_eq_zero]
      intro x hxmem
      obtain ⟨k, h1, h8, rfl⟩ := riself8_mem_perm_target (hp.subset hxmem)
      show ¬(decide (k < 1 ∨ 8 < k) = true)
      simp only [decide_eq_true_eq]
      omega
    have hsum : ((List.range 8).map
        (fun j : ℕ => ((cnt (some ((j : ℤ) + 1)) row : ℤ) - 1).natAbs)).sum = 0 := by
      rw [List.sum_eq_zero_iff]
      intro x hx
      simp only [List.mem_map, List.mem_range] at hx
      obtain ⟨j, hj, rfl⟩ := hx
      rw [hcount (some ((j : ℤ) + 1)), riself8_cnt_perm_target,
        if_pos ⟨by omega, by omega⟩]
      decide
    rw [hoor, hsum]

/-- C5: `check_crossinfo` returns true exactly when the matrix has 8 columns,
no missing entries, and every row a permutation of `{1,...,8}`; for an
8-column matrix a row with a duplicated value forces a positive accumulated
invalid count and a false result, and a row with a missing entry forces a
positive accumulated missing count and a false result. -/
theorem riself8_check_crossinfo_spec (m : IntMatrix) :
    (check_crossinfo m = true ↔
      (m.ncol = 8 ∧ (∀ row ∈ m.rows, (none : Option ℤ) ∉ row) ∧
        ∀ row ∈ m.rows, row.Perm perm_target)) ∧
    (m.ncol = 8 → ∀ row ∈ m.rows,
      (∃ v : ℤ, 1 ≤ v ∧ v ≤ 8 ∧ 2 ≤ cnt (some v) row) →
      check_crossinfo m = false ∧ 0 < n_invalid m) ∧
    (m.ncol = 8 → ∀ row ∈ m.rows, (none : Option ℤ) ∈ row →
      check_crossinfo m = false ∧ 0 < n_missing m) := by
  have hrowle_inv : ∀ row ∈ m.rows, row_invalid row ≤ n_invalid m := by
    intro row hr
    exact List.le_sum_of_mem (List.mem_map_of_mem _ hr)
  have hrowle_mis : ∀ row ∈ m.rows, row_missing row ≤ n_missing m := by
    intro row hr
    exact List.le_sum_of_mem (List.mem_map_of_mem _ hr)
  refine ⟨?_, ?_, ?_⟩
  · by_cases h8 : m.ncol = 8
    · unfold check_crossinfo
      rw [if_neg (not_not_intro h8)]
      simp only [Bool.and_eq_true, decide_eq_true_eq]
      constructor
      · rintro ⟨hm0, hi0⟩
        have hrows : ∀ row ∈ m.rows, row_missing row = 0 ∧ row_invalid row = 0 := by
          intro row hr
          have h1 := hrowle_mis row hr
          have h2 := hrowle_inv row hr
          omega
        refine ⟨h8, fun row hr hmem => ?_,
          fun row hr => (riself8_row_ok_iff row).mp (hrows row hr)⟩
        have h := (hrows row hr).1
        have h' : cnt none row = 0 := h
        unfold cnt at h'
        rw [List.countP_eq_zero] at h'
        exact h' none hmem (by simp)
      · rintro ⟨-, hnn, hperm⟩
        constructor
        · unfold n_missing
          rw [List.sum_eq_zero_iff]
          intro x hx
          simp only [List.mem_map] at hx
          obtain ⟨row, hr, rfl⟩ := hx
          exact ((riself8_row_ok_iff row).mpr (hperm row hr)).1
        · unfold n_invalid
          rw [List.sum_eq_zero_iff]
          intro x hx
          simp only [List.mem_map] at hx
          obtain ⟨row, hr, rfl⟩ := hx
          exact ((riself8_row_ok_iff row).mpr (hperm row hr)).2
    · unfold check_crossinfo
      rw [if_pos h8]
      simp only [Bool.false_eq_true, false_iff]
      rintro ⟨he, -, -⟩
      exact h8 he
  · rintro h8 row hr ⟨v, hv1, hv8, hv2⟩
    have hmem : (((cnt (some (((v - 1).toNat : ℤ) + 1)) row : ℤ) - 1).natAbs)
        ∈ (List.range 8).map
            (fun j : ℕ => ((cnt (some ((j : ℤ) + 1)) row : ℤ) - 1).natAbs) := by
      apply List.mem_map_of_mem
      rw [List.mem_range]; omega
    rw [show (((v - 1).toNat : ℤ) + 1) = v from by omega] at hmem
    have hle := List.le_sum_of_mem hmem
    have hinv : 0 < row_invalid row := by
      unfold row_invalid
      omega
    have hpos : 0 < n_invalid m := lt_of_lt_of_le hinv (hrowle_inv row hr)
    refine ⟨?_, hpos⟩
    unfold check_crossinfo
    rw [if_neg (not_not_intro h8)]
    simp [Nat.pos_iff_ne_zero.mp hpos]
  · rintro h8 row hr hmem
    have hmis : 0 < row_missing row := by
      show 0 < cnt none row
      unfold cnt
      rw [List.countP_pos_iff]
      exact ⟨none, hmem, by simp⟩
    have hpos : 0 < n_missing m := lt_of_lt_of_le hmis (hrowle_mis row hr)
    refine ⟨?_, hpos⟩
    unfold check_crossinfo
    rw [if_neg (not_not_intro h8)]
    simp [Nat.pos_iff_ne_zero.mp hpos]

/-- C5 witness: the duplicate row `[1,1,3,4,5,6,7,8]` is reported invalid. -/
theorem riself8_check_crossinfo_spec_witness :
    check_crossinfo ⟨8, [[some 1, some 1, some 3, some 4, some 5, some 6,
        some 7, some 8]]⟩ = false ∧
      0 < n_invalid ⟨8, [[some 1, some 1, some 3, some 4, some 5, some 6,
        some 7, some 8]]⟩ :=
  (riself8_check_crossinfo_spec _).2.1 rfl _ (List.mem_singleton.mpr rfl)
    ⟨1, by decide, by decide, by decide⟩
